import Mathlib

/-!
Verification of the snapshot engine in `chuk_mcp_virtual_fs`
(`src/chuk_mcp_virtual_fs/simple_snapshot_manager.py`).

The managed filesystem itself is an external collaborator of the repository,
consumed only through the capability contract of spec §6; it is modelled here
as a finite map from absolute paths to nodes.  The snapshot manager
(`SimpleSnapshotManager`) is translated operation by operation from the
source.  Timestamps (`datetime.now()` / `time.time()`) are passed in as
explicit `Nat` arguments; JSON parsing of external documents (`json.load`)
is modelled by an abstract parse result (`JsonDoc`).
-/

namespace VfsSnapshot

/-! ### Association-list primitives (Python `dict` semantics) -/

/-- Keys of an association list, in insertion order. -/
def keysOf (l : List (String × α)) : List String := l.map Prod.fst

/-- Python `d[k]` / `k in d`: first binding of `k`. -/
def lookupA (k : String) : List (String × α) → Option α
  | [] => none
  | (k', v) :: rest => if k' = k then some v else lookupA k rest

/-- Python `d[k] = v`: replace the binding in place, else append. -/
def setA (k : String) (v : α) : List (String × α) → List (String × α)
  | [] => [(k, v)]
  | (k', v') :: rest => if k' = k then (k, v) :: rest else (k', v') :: setA k v rest

/-- Remove every binding of key `k`. -/
def removeA (k : String) : List (String × α) → List (String × α)
  | [] => []
  | (k', v) :: rest => if k' = k then removeA k rest else (k', v) :: removeA k rest

/-- Boolean list membership for strings. -/
def memB (x : String) (l : List String) : Bool := l.any fun y => y == x

/-! ### Character-level string helpers

Kernel-friendly (structurally recursive) replacements for the Python string
operations used by the snapshot manager. -/

/-- `pre` is an initial run of `s` (char lists). -/
def charsStart : List Char → List Char → Bool
  | [], _ => true
  | _ :: _, [] => false
  | a :: as, b :: bs => a == b && charsStart as bs

/-- Python `s.startswith(pfx)`. -/
def startswith (s pfx : String) : Bool := charsStart pfx.data s.data

/-- Python `s.endswith(suffix)`. -/
def endswith (s suffix : String) : Bool :=
  charsStart suffix.data.reverse s.data.reverse

/-- Python `s[:-n]`. -/
def dropright (s : String) (n : Nat) : String := ⟨s.data.take (s.data.length - n)⟩

/-- Does the string contain a `/`? -/
def hasSlash (s : String) : Bool := s.data.any fun c => c == '/'

/-- Split a character list on `/` (Python `s.split("/")`). -/
def splitSlash : List Char → List (List Char)
  | [] => [[]]
  | c :: rest =>
    let r := splitSlash rest
    if c == '/' then [] :: r
    else
      match r with
      | [] => [[c]]
      | h :: t => (c :: h) :: t

/-- Join character lists with `/` (Python `"/".join(...)`). -/
def joinSlash : List (List Char) → List Char
  | [] => []
  | [x] => x
  | x :: xs => x ++ '/' :: joinSlash xs

/-- Join strings with `,`. -/
def joinComma : List String → String
  | [] => ""
  | [x] => x
  | x :: xs => x ++ "," ++ joinComma xs

/-- Python `os.path.dirname` on the canonical absolute paths used here. -/
def dirname (p : String) : String :=
  let parts := splitSlash p.data
  if parts.length ≤ 1 then ""
  else
    let d := joinSlash parts.dropLast
    if d.isEmpty then "/" else ⟨d⟩

/-- The chain of ancestor directories created by `mkdir(path, recursive=True)`:
for `/a/b/c` this is `/a`, `/a/b`, `/a/b/c`. -/
def ancestors (p : String) : List String :=
  let parts := (splitSlash p.data).filter fun cs => !cs.isEmpty
  (List.range parts.length).map fun i => ⟨'/' :: joinSlash (parts.take (i + 1))⟩

/-! ### Codec: UTF-8 bytes and base64 (Python `base64.b64encode`) -/

/-- Modelled from the spec: UTF-8 encoding of one code point (§4.2 text
content; the underlying encoder lives in the external filesystem package). -/
def utf8Bytes (c : Nat) : List Nat :=
  if c < 0x80 then [c]
  else if c < 0x800 then [0xC0 + c / 0x40, 0x80 + c % 0x40]
  else if c < 0x10000 then
    [0xE0 + c / 0x1000, 0x80 + c / 0x40 % 0x40, 0x80 + c % 0x40]
  else
    [0xF0 + c / 0x40000, 0x80 + c / 0x1000 % 0x40, 0x80 + c / 0x40 % 0x40, 0x80 + c % 0x40]

/-- UTF-8 bytes of a string. -/
def strBytes (s : String) : List Nat := (s.data.map fun ch => utf8Bytes ch.toNat).flatten

/-- The standard base64 alphabet. -/
def b64chars : List Char :=
  "ABCDEFGHIJKLMNOPQRSTUVWXYZabcdefghijklmnopqrstuvwxyz0123456789+/".data

/-- Character at a sextet value. -/
def b64char (n : Nat) : Char := b64chars.getD n '='

/-- Modelled from the spec: standard base64 groups with `=` padding, as
produced by Python `base64.b64encode` (stdlib, outside the repository). -/
def b64groups : List Nat → List Char
  | [] => []
  | [b1] => [b64char (b1 / 4), b64char (b1 % 4 * 16), '=', '=']
  | [b1, b2] =>
    let n := b1 * 256 + b2
    [b64char (n / 1024), b64char (n / 16 % 64), b64char (n % 16 * 4), '=']
  | b1 :: b2 :: b3 :: rest =>
    let n := b1 * 65536 + b2 * 256 + b3
    b64char (n / 262144) :: b64char (n / 4096 % 64) :: b64char (n / 64 % 64) ::
      b64char (n % 64) :: b64groups rest

/-- `base64.b64encode(bytes).decode('ascii')`. -/
def b64encode (b : List Nat) : String := ⟨b64groups b⟩

/-! ### The managed filesystem (spec §6 capability contract) -/

/-- File content: UTF-8-decodable text, or raw bytes that are not valid text. -/
inductive Content where
  | text (s : String)
  | binary (b : List Nat)
  deriving DecidableEq

/-- A node of the managed tree. -/
inductive Node where
  | dir
  | file (c : Content)
  deriving DecidableEq

/-- Modelled from the spec: the managed filesystem of §6 (an external
collaborator of this repository), as a finite map from absolute paths to
nodes.  `writeFails` injects environmental write failures (§7
`PersistenceFailure`). -/
structure FS where
  entries : List (String × Node)
  writeFails : List String
  deriving DecidableEq

/-- Modelled from the spec: `exists(path) -> bool`. -/
def FS.exists (fs : FS) (p : String) : Bool := (lookupA p fs.entries).isSome

/-- Modelled from the spec: `find("/", recursive=True)` — every path of the
tree. -/
def FS.find (fs : FS) : List String := keysOf fs.entries

/-- Modelled from the spec: the `is_dir` classification obtained through
`get_node_info`; a missing node counts as not-a-directory, exactly as in the
manager's `node_info and node_info.is_dir` idiom. -/
def FS.is_dir (fs : FS) (p : String) : Bool :=
  match lookupA p fs.entries with
  | some Node.dir => true
  | _ => false

/-- Modelled from the spec: `read_file(path, encoding="utf-8")`; binary
content raises (`ValueError`), as does a missing path or a directory. -/
def FS.read_text (fs : FS) (p : String) : Except Unit String :=
  match lookupA p fs.entries with
  | some (Node.file (Content.text s)) => Except.ok s
  | _ => Except.error ()

/-- Modelled from the spec: `read_file(path)` in byte mode. -/
def FS.read_bytes (fs : FS) (p : String) : Except Unit (List Nat) :=
  match lookupA p fs.entries with
  | some (Node.file (Content.binary b)) => Except.ok b
  | some (Node.file (Content.text s)) => Except.ok (strBytes s)
  | _ => Except.error ()

/-- Modelled from the spec: `write_file(path, content, encoding="utf-8")`;
creates or overwrites; `false` signals an injected environmental failure
(a raised exception in Python). -/
def FS.write_text (fs : FS) (p : String) (s : String) : FS × Bool :=
  if memB p fs.writeFails then (fs, false)
  else ({ fs with entries := setA p (Node.file (Content.text s)) fs.entries }, true)

/-- Modelled from the spec: `mkdir(path)`, idempotent when the target exists. -/
def FS.mkdir1 (fs : FS) (p : String) : FS :=
  if fs.exists p then fs
  else { fs with entries := setA p Node.dir fs.entries }

/-- Modelled from the spec: `mkdir(path, recursive=True)`. -/
def FS.mkdirRec (fs : FS) (p : String) : FS := (ancestors p).foldl FS.mkdir1 fs

/-- Modelled from the spec: `rm(path)` removes a file. -/
def FS.rm (fs : FS) (p : String) : FS := { fs with entries := removeA p fs.entries }

/-- Modelled from the spec: `ls(dir)` — names of the entries directly under
`dir`. -/
def FS.ls (fs : FS) (d : String) : List String :=
  fs.entries.filterMap fun kv =>
    if startswith kv.1 (d ++ "/") then
      let rest : String := ⟨kv.1.data.drop (d.data.length + 1)⟩
      if hasSlash rest then none else some rest
    else none

/-- Observation used by the round-trip claims: the content stored at a path
classified as a file. -/
def fileAt (fs : FS) (p : String) : Option Content :=
  match lookupA p fs.entries with
  | some (Node.file c) => some c
  | _ => none

/-! ### Snapshot manager state -/

/-- Snapshot metadata (`self._snapshots[name]`); `created` is the timestamp
as a `Nat`, `none` when the loaded document had no parseable `created`. -/
structure Meta where
  name : String
  description : String
  created : Option Nat
  deriving DecidableEq

/-- The manager state: the managed filesystem plus the in-memory index
(`self._snapshots`) and payload cache (`self._snapshot_data`). -/
structure St where
  fs : FS
  snapshots : List (String × Meta)
  snapshot_data : List (String × List (String × String))
  deriving DecidableEq

/-- `self.snapshot_dir = "/.snapshots"`. -/
def snapshot_dir : String := "/.snapshots"

/-- Python `description or f"Snapshot created at {timestamp.isoformat()}"`
(`or` also replaces an empty string). -/
def defaultDescription (t : Nat) : String := "Snapshot created at " ++ Nat.repr t

/-- Resolve the optional description exactly as the Python `or` does. -/
def descOr (d : Option String) (t : Nat) : String :=
  match d with
  | some s => if s = "" then defaultDescription t else s
  | none => defaultDescription t

/-- Serialized form of `{**metadata, "files": payload}`; stands for
`json.dumps(export_data, indent=2)` (Python stdlib).  No claim inspects the
serialized text, only that this string is what gets written. -/
def serializeSnapshot (m : Meta) (files : List (String × String)) : String :=
  "name=" ++ m.name ++ ";description=" ++ m.description ++ ";created=" ++
    (match m.created with
     | some n => Nat.repr n
     | none => "null") ++
    ";files=" ++ joinComma (files.map fun kv => kv.1 ++ ":" ++ kv.2)

/-! ### Tree walk and capture (`create_snapshot`, lines 84-148) -/

/-- Lines 96-101 / 203-209: `fs.find("/", recursive=True)` with everything
under the reserved namespace filtered out. -/
def current_paths (fs : FS) : List String :=
  (fs.find).filter fun p => !(startswith p snapshot_dir)

/-- The capture loop of lines 110-132: skip directories, read text, fall
back to base64-encoded binary, skip unreadable files. -/
def captureFold (fs : FS) (acc : List (String × String)) :
    List String → List (String × String)
  | [] => acc
  | path :: rest =>
    if fs.is_dir path then captureFold fs acc rest
    else
      match fs.read_text path with
      | Except.ok c => captureFold fs (setA path c acc) rest
      | Except.error _ =>
        match fs.read_bytes path with
        | Except.ok b => captureFold fs (setA path (b64encode b) acc) rest
        | Except.error _ => captureFold fs acc rest

/-- The payload built by `create_snapshot` before it is registered. -/
def capture_data (fs : FS) : List (String × String) :=
  captureFold fs [] (current_paths fs)

/-- `_save_snapshot` (lines 150-183): ensure the reserved directory, write
`<snapshot_dir>/<name>.json`; a write failure returns `False` and leaves the
in-memory state alone. -/
def save_snapshot (st : St) (name : String) : St × Bool :=
  match lookupA name st.snapshots with
  | none => (st, false)
  | some m =>
    let fs1 := if st.fs.exists snapshot_dir then st.fs else st.fs.mkdir1 snapshot_dir
    let files := (lookupA name st.snapshot_data).getD []
    let wr := fs1.write_text (snapshot_dir ++ "/" ++ name ++ ".json")
      (serializeSnapshot m files)
    ({ st with fs := wr.1 }, wr.2)

/-- `create_snapshot(name, description)` (lines 84-148); `t` is
`datetime.now()`.  The `try/except` around `_save_snapshot` discards its
outcome. -/
def create_snapshot (st : St) (name : String) (description : Option String)
    (t : Nat) : St × Meta :=
  let data := capture_data st.fs
  let m : Meta := ⟨name, descOr description t, some t⟩
  let st1 : St := { st with
    snapshots := setA name m st.snapshots,
    snapshot_data := setA name data st.snapshot_data }
  ((save_snapshot st1 name).1, m)

/-! ### Restore (`restore_snapshot`, lines 185-269) -/

/-- Trace of effecting operations against the managed filesystem, used to
state ordering and frame properties. -/
inductive FSOp where
  | rm (p : String)
  | mkdirRec (p : String)
  | write (p : String)
  deriving DecidableEq

/-- Is this trace event a file removal? -/
def is_rm : FSOp → Bool
  | FSOp.rm _ => true
  | _ => false

/-- The removal targets named by a trace. -/
def rmTargets (tr : List FSOp) : List String :=
  tr.filterMap fun e =>
    match e with
    | FSOp.rm p => some p
    | _ => none

/-- The deletion loop of lines 221-233: for each candidate, skip it when the
live tree classifies it as a directory, otherwise `rm` it. -/
def delFold (fs : FS) : List String → FS × List FSOp
  | [] => (fs, [])
  | p :: ts =>
    if fs.is_dir p then delFold fs ts
    else
      let r := delFold (fs.rm p) ts
      (r.1, FSOp.rm p :: r.2)

/-- `current_paths - snapshot_paths` (line 221), the candidates of the
deletion phase. -/
def del_targets (fs : FS) (snapshot_paths : List String) : List String :=
  (current_paths fs).filter fun p => !(memB p snapshot_paths)

/-- The complete deletion phase of `restore_snapshot`. -/
def delete_phase (fs : FS) (snapshot_paths : List String) : FS × List FSOp :=
  delFold fs (del_targets fs snapshot_paths)

/-- The directory phase of lines 236-247: recursive `mkdir` of every
nonempty parent. -/
def mkdirFold (fs : FS) : List String → FS × List FSOp
  | [] => (fs, [])
  | p :: ts =>
    let d := dirname p
    if d = "" then mkdirFold fs ts
    else
      let r := mkdirFold (fs.mkdirRec d) ts
      (r.1, FSOp.mkdirRec d :: r.2)

/-- The write phase of lines 250-267.  `write_file(path, content,
encoding="utf-8")` accepts every stored string (they are all `str`), so the
`TypeError` branch with its `b'...'` sniffing never runs; stored values are
written back as text.  A failing write is logged and skipped. -/
def writeFold (fs : FS) : List (String × String) → FS × List FSOp
  | [] => (fs, [])
  | kv :: rest =>
    let r := writeFold (fs.write_text kv.1 kv.2).1 rest
    (r.1, FSOp.write kv.1 :: r.2)

/-- `restore_snapshot(name)` (lines 185-269): `Except.error ()` is the
`ValueError: Snapshot not found`; the trace records the managed-filesystem
operations in order. -/
def restore_snapshot (st : St) (name : String) : St × Except Unit (List FSOp) :=
  match lookupA name st.snapshots with
  | none => (st, Except.error ())
  | some _ =>
    let files := (lookupA name st.snapshot_data).getD []
    let sp := keysOf files
    let r1 := delete_phase st.fs sp
    let r2 := mkdirFold r1.1 sp
    let r3 := writeFold r2.1 files
    ({ st with fs := r3.1 }, Except.ok (r1.2 ++ r2.2 ++ r3.2))

/-! ### Listing, export, import, load (lines 271-360 and 44-82) -/

/-- `list_snapshots` (lines 271-278). -/
def list_snapshots (st : St) : List Meta := st.snapshots.map Prod.snd

/-- An external JSON file written by `export_snapshot` (ordinary host I/O,
outside the managed filesystem). -/
structure ExtFile where
  path : String
  contents : String
  deriving DecidableEq

/-- `export_snapshot(name, path)` (lines 280-313): `Except.error ()` is the
`ValueError` for an unknown name; on success the single external file is the
only effect. -/
def export_snapshot (st : St) (name : String) (path : String) :
    St × Except Unit ExtFile :=
  match lookupA name st.snapshots with
  | none => (st, Except.error ())
  | some m =>
    (st, Except.ok ⟨path, serializeSnapshot m ((lookupA name st.snapshot_data).getD [])⟩)

/-- The parse result of `json.load` on an external snapshot document
(stdlib); `created` is the parsed timestamp when present and parseable. -/
structure JsonDoc where
  name : Option String
  description : Option String
  created : Option Nat
  files : List (String × String)
  deriving DecidableEq

/-- Line 335: `name = new_name or data.get("name", f"imported_{int(time.time())}")`.
Python `or` treats an empty string like `None`. -/
def chosen_name (new_name : Option String) (doc_name : Option String) (t : Nat) : String :=
  let fallback := doc_name.getD ("imported_" ++ Nat.repr t)
  match new_name with
  | some s => if s = "" then fallback else s
  | none => fallback

/-- `import_snapshot(path, new_name)` (lines 315-360); `doc = none` is an
unreadable or unparseable file (`ValueError`); `t` is the current time. -/
def import_snapshot (st : St) (doc : Option JsonDoc) (new_name : Option String)
    (t : Nat) : St × Except Unit String :=
  match doc with
  | none => (st, Except.error ())
  | some d =>
    let name := chosen_name new_name d.name t
    let m : Meta := ⟨name, d.description.getD "Imported snapshot", some (d.created.getD t)⟩
    let st1 : St := { st with
      snapshots := setA name m st.snapshots,
      snapshot_data := setA name d.files st.snapshot_data }
    ((save_snapshot st1 name).1, Except.ok name)

/-- One iteration of `_load_snapshots` (lines 50-78): a `*.json` entry that
reads and parses registers both metadata and payload; any failure skips the
item. -/
def load_step (parse : String → Option JsonDoc) (st : St) (item : String) : St :=
  if endswith item ".json" then
    let nm := dropright item 5
    match st.fs.read_text (snapshot_dir ++ "/" ++ item) with
    | Except.error _ => st
    | Except.ok content =>
      match parse content with
      | none => st
      | some d =>
        { st with
          snapshots := setA nm ⟨nm, d.description.getD "", d.created⟩ st.snapshots,
          snapshot_data := setA nm d.files st.snapshot_data }
  else st

/-- `_load_snapshots` (lines 44-82); `parse` stands for `json.loads`. -/
def load_snapshots (parse : String → Option JsonDoc) (st : St) : St :=
  if st.fs.exists snapshot_dir then (st.fs.ls snapshot_dir).foldl (load_step parse) st
  else st

/-- `__init__` (lines 17-42): create the reserved directory when missing,
then replay the persisted documents. -/
def initSt (fs0 : FS) (parse : String → Option JsonDoc) : St :=
  let fs1 := if fs0.exists snapshot_dir then fs0 else fs0.mkdir1 snapshot_dir
  load_snapshots parse ⟨fs1, [], []⟩

/-- The implicit invariant of claim C9: the index and the payload cache hold
exactly the same snapshot names. -/
def sameKeysB (st : St) : Bool :=
  ((keysOf st.snapshots).all fun n => memB n (keysOf st.snapshot_data)) &&
  ((keysOf st.snapshot_data).all fun n => memB n (keysOf st.snapshots))

/-! ### Association-list lemmas -/

theorem lookupA_setA_self (k : String) (v : α) (l : List (String × α)) :
    lookupA k (setA k v l) = some v := by
  induction l with
  | nil => simp [setA, lookupA]
  | cons kv rest ih =>
    obtain ⟨k', v'⟩ := kv
    by_cases h : k' = k
    · simp [setA, h, lookupA]
    · simp [setA, h, lookupA, ih]

theorem lookupA_setA_ne (k k' : String) (v : α) (l : List (String × α))
    (h : k' ≠ k) : lookupA k' (setA k v l) = lookupA k' l := by
  have hk : k ≠ k' := fun hh => h hh.symm
  induction l with
  | nil => simp [setA, lookupA, hk]
  | cons kv rest ih =>
    obtain ⟨k₀, v₀⟩ := kv
    by_cases h0 : k₀ = k
    · subst h0
      simp [setA, lookupA, hk]
    · simp [setA, h0, lookupA, ih]

theorem mem_setA (kv' : String × α) (k : String) (v : α) (l : List (String × α))
    (h : kv' ∈ setA k v l) : kv' = (k, v) ∨ kv' ∈ l := by
  induction l with
  | nil => simpa [setA] using h
  | cons kv rest ih =>
    by_cases h0 : kv.1 = k
    · obtain ⟨k₀, v₀⟩ := kv
      simp only at h0
      subst h0
      rcases (by simpa [setA] using h : kv' = (k₀, v) ∨ kv' ∈ rest) with h1 | h1
      · exact Or.inl h1
      · exact Or.inr (List.mem_cons_of_mem _ h1)
    · obtain ⟨k₀, v₀⟩ := kv
      simp only at h0
      rcases (by simpa [setA, h0] using h : kv' = (k₀, v₀) ∨ kv' ∈ setA k v rest) with h1 | h1
      · exact Or.inr (by simp [h1])
      · rcases ih h1 with h2 | h2
        · exact Or.inl h2
        · exact Or.inr (List.mem_cons_of_mem _ h2)

theorem mem_keys_setA (n k : String) (v : α) (l : List (String × α)) :
    n ∈ keysOf (setA k v l) ↔ n = k ∨ n ∈ keysOf l := by
  induction l with
  | nil => simp [setA, keysOf]
  | cons kv rest ih =>
    obtain ⟨k₀, v₀⟩ := kv
    by_cases h0 : k₀ = k
    · subst h0
      simp [setA, keysOf]
    · simp only [setA, h0, if_false, keysOf, List.map_cons, List.mem_cons]
      rw [show keysOf (setA k v rest) = (setA k v rest).map Prod.fst from rfl] at ih
      rw [show keysOf rest = rest.map Prod.fst from rfl] at ih
      constructor
      · rintro (h1 | h1)
        · exact Or.inr (Or.inl h1)
        · rcases ih.mp h1 with h2 | h2
          · exact Or.inl h2
          · exact Or.inr (Or.inr h2)
      · rintro (h1 | h1 | h1)
        · exact Or.inr (ih.mpr (Or.inl h1))
        · exact Or.inl h1
        · exact Or.inr (ih.mpr (Or.inr h1))

theorem keys_setA_nodup (k : String) (v : α) (l : List (String × α))
    (h : (keysOf l).Nodup) : (keysOf (setA k v l)).Nodup := by
  induction l with
  | nil => simp [setA, keysOf]
  | cons kv rest ih =>
    obtain ⟨k₀, v₀⟩ := kv
    simp only [keysOf, List.map_cons, List.nodup_cons] at h
    by_cases h0 : k₀ = k
    · subst h0
      simpa [setA, keysOf, List.nodup_cons] using h
    · simp only [setA, h0, if_false, keysOf, List.map_cons, List.nodup_cons]
      refine ⟨?_, ih h.2⟩
      intro hmem
      rcases (mem_keys_setA k₀ k v rest).mp hmem with h1 | h1
      · exact h0 h1
      · exact h.1 h1

theorem lookupA_removeA_self (k : String) (l : List (String × α)) :
    lookupA k (removeA k l) = none := by
  induction l with
  | nil => simp [removeA, lookupA]
  | cons kv rest ih =>
    obtain ⟨k₀, v₀⟩ := kv
    by_cases h0 : k₀ = k
    · simp [removeA, h0, ih]
    · simp [removeA, h0, lookupA, ih]

theorem lookupA_removeA_ne (q k : String) (l : List (String × α)) (h : q ≠ k) :
    lookupA q (removeA k l) = lookupA q l := by
  induction l with
  | nil => simp [removeA]
  | cons kv rest ih =>
    obtain ⟨k₀, v₀⟩ := kv
    by_cases h0 : k₀ = k
    · subst h0
      have hk : ¬ k₀ = q := fun hh => h hh.symm
      simp [removeA, lookupA, hk, ih]
    · simp [removeA, h0, lookupA, ih]

theorem lookupA_isSome_iff (k : String) (l : List (String × α)) :
    (lookupA k l).isSome = true ↔ k ∈ keysOf l := by
  induction l with
  | nil => simp [lookupA, keysOf]
  | cons kv rest ih =>
    obtain ⟨k₀, v₀⟩ := kv
    by_cases h0 : k₀ = k
    · subst h0
      simp [lookupA, keysOf]
    · have hk : ¬ k = k₀ := fun hh => h0 hh.symm
      simp only [lookupA, h0, if_false, keysOf, List.map_cons, List.mem_cons]
      rw [show keysOf rest = rest.map Prod.fst from rfl] at ih
      constructor
      · intro hs
        exact Or.inr (ih.mp hs)
      · rintro (h1 | h1)
        · exact absurd h1 hk
        · exact ih.mpr h1

theorem lookupA_eq_none_iff (k : String) (l : List (String × α)) :
    lookupA k l = none ↔ k ∉ keysOf l := by
  rw [← lookupA_isSome_iff]
  cases lookupA k l <;> simp

theorem memB_iff (x : String) (l : List String) : memB x l = true ↔ x ∈ l := by
  induction l with
  | nil => simp [memB]
  | cons y rest ih =>
    simp only [memB, List.any_cons, Bool.or_eq_true, beq_iff_eq, List.mem_cons]
    rw [show (rest.any fun y => y == x) = memB x rest from rfl, ih]
    constructor
    · rintro (h | h)
      · exact Or.inl h.symm
      · exact Or.inr h
    · rintro (h | h)
      · exact Or.inl h.symm
      · exact Or.inr h

/-! ### Filesystem and phase lemmas -/

theorem is_dir_rm_ne (fs : FS) (p q : String) (h : p ≠ q) :
    (fs.rm q).is_dir p = fs.is_dir p := by
  simp [FS.is_dir, FS.rm, lookupA_removeA_ne p q fs.entries h]

theorem filter_removeA (q : String × Node → Bool) (p : String)
    (l : List (String × Node)) (hq : ∀ v, q (p, v) = false) :
    (removeA p l).filter q = l.filter q := by
  induction l with
  | nil => simp [removeA]
  | cons kv rest ih =>
    obtain ⟨k₀, v₀⟩ := kv
    by_cases h0 : k₀ = p
    · subst h0
      simp [removeA, List.filter_cons, hq v₀, ih]
    · simp only [removeA, h0, if_false, List.filter_cons]
      cases q (k₀, v₀) <;> simp [ih]

theorem delFold_trace_rm (fs : FS) (ts : List String) :
    ∀ e ∈ (delFold fs ts).2, is_rm e = true := by
  induction ts generalizing fs with
  | nil => simp [delFold]
  | cons p ts ih =>
    intro e he
    by_cases hd : fs.is_dir p = true
    · exact ih fs e (by simpa [delFold, hd] using he)
    · rcases (by simpa [delFold, hd] using he :
        e = FSOp.rm p ∨ e ∈ (delFold (fs.rm p) ts).2) with h1 | h1
      · simp [h1, is_rm]
      · exact ih (fs.rm p) e h1

theorem mkdirFold_trace (fs : FS) (ts : List String) :
    ∀ e ∈ (mkdirFold fs ts).2, is_rm e = false := by
  induction ts generalizing fs with
  | nil => simp [mkdirFold]
  | cons p ts ih =>
    intro e he
    by_cases hd : dirname p = ""
    · exact ih fs e (by simpa [mkdirFold, hd] using he)
    · rcases (by simpa [mkdirFold, hd] using he :
        e = FSOp.mkdirRec (dirname p) ∨ e ∈ (mkdirFold (fs.mkdirRec (dirname p)) ts).2) with h1 | h1
      · simp [h1, is_rm]
      · exact ih _ e h1

theorem writeFold_trace (fs : FS) (l : List (String × String)) :
    ∀ e ∈ (writeFold fs l).2, is_rm e = false := by
  induction l generalizing fs with
  | nil => simp [writeFold]
  | cons kv rest ih =>
    intro e he
    rcases (by simpa [writeFold] using he :
      e = FSOp.write kv.1 ∨ e ∈ (writeFold (fs.write_text kv.1 kv.2).1 rest).2) with h1 | h1
    · simp [h1, is_rm]
    · exact ih _ e h1

theorem delFold_rm_mem (fs : FS) (ts : List String) (hnd : ts.Nodup) (p : String) :
    FSOp.rm p ∈ (delFold fs ts).2 ↔ p ∈ ts ∧ fs.is_dir p = false := by
  induction ts generalizing fs with
  | nil => simp [delFold]
  | cons t ts ih =>
    rw [List.nodup_cons] at hnd
    by_cases hd : fs.is_dir t = true
    · rw [show (delFold fs (t :: ts)).2 = (delFold fs ts).2 by simp [delFold, hd]]
      rw [ih fs hnd.2]
      constructor
      · rintro ⟨h1, h2⟩
        exact ⟨List.mem_cons_of_mem _ h1, h2⟩
      · rintro ⟨h1, h2⟩
        rcases List.mem_cons.mp h1 with h3 | h3
        · subst h3
          exact absurd hd (by simp [h2])
        · exact ⟨h3, h2⟩
    · have hd' : fs.is_dir t = false := by
        cases h : fs.is_dir t
        · rfl
        · exact absurd h hd
      rw [show (delFold fs (t :: ts)).2 = FSOp.rm t :: (delFold (fs.rm t) ts).2 by
        simp [delFold, hd']]
      rw [List.mem_cons]
      constructor
      · rintro (h1 | h1)
        · have : p = t := by simpa using h1
          subst this
          exact ⟨List.mem_cons_self _ _, hd'⟩
        · obtain ⟨h2, h3⟩ := (ih (fs.rm t) hnd.2).mp h1
          have hne : p ≠ t := fun hh => hnd.1 (hh ▸ h2)
          exact ⟨List.mem_cons_of_mem _ h2, (is_dir_rm_ne fs p t hne).symm.trans h3⟩
      · rintro ⟨h1, h2⟩
        rcases List.mem_cons.mp h1 with h3 | h3
        · exact Or.inl (by simp [h3])
        · have hne : p ≠ t := fun hh => hnd.1 (hh ▸ h3)
          exact Or.inr ((ih (fs.rm t) hnd.2).mpr
            ⟨h3, (is_dir_rm_ne fs p t hne).trans h2⟩)

theorem delFold_lookup (ts : List String) (fs : FS) (hnd : ts.Nodup) (q : String) :
    lookupA q (delFold fs ts).1.entries =
      if q ∈ ts ∧ fs.is_dir q = false then none else lookupA q fs.entries := by
  induction ts generalizing fs with
  | nil => simp [delFold]
  | cons t ts ih =>
    rw [List.nodup_cons] at hnd
    by_cases hd : fs.is_dir t = true
    · rw [show (delFold fs (t :: ts)).1 = (delFold fs ts).1 by simp [delFold, hd]]
      rw [ih fs hnd.2]
      by_cases hq : q = t
      · subst hq
        simp [hd, fun h : q ∈ ts => hnd.1 h]
      · simp [List.mem_cons, hq]
    · have hd' : fs.is_dir t = false := by
        cases h : fs.is_dir t
        · rfl
        · exact absurd h hd
      rw [show (delFold fs (t :: ts)).1 = (delFold (fs.rm t) ts).1 by simp [delFold, hd']]
      rw [ih (fs.rm t) hnd.2]
      by_cases hq : q = t
      · subst hq
        have hqts : q ∉ ts := hnd.1
        simp only [hqts, false_and, if_false, List.mem_cons, true_or, hd', and_true, if_pos trivial]
        simp [FS.rm, lookupA_removeA_self]
      · rw [is_dir_rm_ne fs q t hq]
        rw [show lookupA q (fs.rm t).entries = lookupA q fs.entries from
          lookupA_removeA_ne q t fs.entries hq]
        simp [List.mem_cons, hq]

theorem delFold_filter_startswith (fs : FS) (ts : List String)
    (h : ∀ p ∈ ts, startswith p snapshot_dir = false) :
    (delFold fs ts).1.entries.filter (fun kv => startswith kv.1 snapshot_dir) =
      fs.entries.filter (fun kv => startswith kv.1 snapshot_dir) := by
  induction ts generalizing fs with
  | nil => simp [delFold]
  | cons t ts ih =>
    by_cases hd : fs.is_dir t = true
    · rw [show (delFold fs (t :: ts)).1 = (delFold fs ts).1 by simp [delFold, hd]]
      exact ih fs fun p hp => h p (List.mem_cons_of_mem _ hp)
    · rw [show (delFold fs (t :: ts)).1 = (delFold (fs.rm t) ts).1 by
        have hd' : fs.is_dir t = false := by
          cases hh : fs.is_dir t
          · rfl
          · exact absurd hh hd
        simp [delFold, hd']]
      rw [ih (fs.rm t) fun p hp => h p (List.mem_cons_of_mem _ hp)]
      exact filter_removeA _ t fs.entries fun v => h t (List.mem_cons_self _ _)

theorem captureFold_keys (P : String → Prop) (fs : FS)
    (acc : List (String × String)) (ps : List String)
    (hacc : ∀ kv ∈ acc, P kv.1) (hps : ∀ p ∈ ps, P p) :
    ∀ kv ∈ captureFold fs acc ps, P kv.1 := by
  induction ps generalizing acc with
  | nil => simpa [captureFold] using hacc
  | cons p ps ih =>
    have hp : P p := hps p (List.mem_cons_self _ _)
    have hps' : ∀ q ∈ ps, P q := fun q hq => hps q (List.mem_cons_of_mem _ hq)
    have hset : ∀ c : String, ∀ kv ∈ setA p c acc, P kv.1 := by
      intro c kv hkv
      rcases mem_setA kv p c acc hkv with h1 | h1
      · rw [h1]
        exact hp
      · exact hacc kv h1
    intro kv hkv
    by_cases hd : fs.is_dir p = true
    · exact ih acc hacc hps' kv (by simpa [captureFold, hd] using hkv)
    · rcases hrt : fs.read_text p with e | c
      · rcases hrb : fs.read_bytes p with e' | b
        · exact ih acc hacc hps' kv (by simpa [captureFold, hd, hrt, hrb] using hkv)
        · exact ih _ (hset (b64encode b)) hps' kv
            (by simpa [captureFold, hd, hrt, hrb] using hkv)
      · exact ih _ (hset c) hps' kv (by simpa [captureFold, hd, hrt] using hkv)

/-! ### State-shape lemmas for the manager operations -/

theorem save_snapshot_maps (st : St) (n : String) :
    (save_snapshot st n).1.snapshots = st.snapshots ∧
    (save_snapshot st n).1.snapshot_data = st.snapshot_data := by
  rcases h : lookupA n st.snapshots with _ | m
  · simp [save_snapshot, h]
  · simp [save_snapshot, h]

theorem create_snapshot_state (st : St) (n : String) (d : Option String) (t : Nat) :
    (create_snapshot st n d t).1.snapshots =
      setA n ⟨n, descOr d t, some t⟩ st.snapshots ∧
    (create_snapshot st n d t).1.snapshot_data =
      setA n (capture_data st.fs) st.snapshot_data ∧
    (create_snapshot st n d t).2 = ⟨n, descOr d t, some t⟩ := by
  have h := save_snapshot_maps
    { st with
      snapshots := setA n ⟨n, descOr d t, some t⟩ st.snapshots,
      snapshot_data := setA n (capture_data st.fs) st.snapshot_data } n
  exact ⟨h.1, h.2, rfl⟩

theorem restore_snapshot_maps (st : St) (n : String) :
    (restore_snapshot st n).1.snapshots = st.snapshots ∧
    (restore_snapshot st n).1.snapshot_data = st.snapshot_data := by
  rcases h : lookupA n st.snapshots with _ | m
  · simp [restore_snapshot, h]
  · simp [restore_snapshot, h]

theorem import_snapshot_state (st : St) (d : JsonDoc) (nn : Option String) (t : Nat) :
    (import_snapshot st (some d) nn t).1.snapshots =
      setA (chosen_name nn d.name t)
        ⟨chosen_name nn d.name t, d.description.getD "Imported snapshot",
          some (d.created.getD t)⟩ st.snapshots ∧
    (import_snapshot st (some d) nn t).1.snapshot_data =
      setA (chosen_name nn d.name t) d.files st.snapshot_data ∧
    (import_snapshot st (some d) nn t).2 = Except.ok (chosen_name nn d.name t) := by
  have h := save_snapshot_maps
    { st with
      snapshots := setA (chosen_name nn d.name t)
        ⟨chosen_name nn d.name t, d.description.getD "Imported snapshot",
          some (d.created.getD t)⟩ st.snapshots,
      snapshot_data := setA (chosen_name nn d.name t) d.files st.snapshot_data }
    (chosen_name nn d.name t)
  exact ⟨h.1, h.2, rfl⟩

/-! ### Key-set agreement (claim C9) -/

/-- Propositional form of `sameKeysB`. -/
def SameKeys (st : St) : Prop :=
  ∀ n, n ∈ keysOf st.snapshots ↔ n ∈ keysOf st.snapshot_data

theorem sameKeysB_iff (st : St) : sameKeysB st = true ↔ SameKeys st := by
  simp only [sameKeysB, Bool.and_eq_true, List.all_eq_true, SameKeys]
  constructor
  · rintro ⟨h1, h2⟩ n
    constructor
    · intro hn
      exact (memB_iff _ _).mp (h1 n hn)
    · intro hn
      exact (memB_iff _ _).mp (h2 n hn)
  · intro h
    constructor
    · intro n hn
      exact (memB_iff _ _).mpr ((h n).mp hn)
    · intro n hn
      exact (memB_iff _ _).mpr ((h n).mpr hn)

theorem sameKeys_setA_pair (st : St) (k : String) (m : Meta)
    (dta : List (String × String)) (h : SameKeys st) :
    SameKeys { st with
      snapshots := setA k m st.snapshots,
      snapshot_data := setA k dta st.snapshot_data } := by
  intro n
  simp only [mem_keys_setA]
  constructor
  · rintro (h1 | h1)
    · exact Or.inl h1
    · exact Or.inr ((h n).mp h1)
  · rintro (h1 | h1)
    · exact Or.inl h1
    · exact Or.inr ((h n).mpr h1)

theorem sameKeys_fs_update (st : St) (fs' : FS) (h : SameKeys st) :
    SameKeys { st with fs := fs' } := h

theorem save_snapshot_sameKeys (st : St) (n : String) (h : SameKeys st) :
    SameKeys (save_snapshot st n).1 := by
  intro q
  have hm := save_snapshot_maps st n
  rw [hm.1, hm.2]
  exact h q

theorem load_step_sameKeys (parse : String → Option JsonDoc) (st : St)
    (item : String) (h : SameKeys st) : SameKeys (load_step parse st item) := by
  by_cases he : endswith item ".json" = true
  · rcases hr : st.fs.read_text (snapshot_dir ++ "/" ++ item) with e | content
    · simpa [load_step, he, hr] using h
    · rcases hp : parse content with _ | d
      · simpa [load_step, he, hr, hp] using h
      · have := sameKeys_setA_pair st (dropright item 5)
          ⟨dropright item 5, d.description.getD "", d.created⟩ d.files h
        simpa [load_step, he, hr, hp] using this
  · simpa [load_step, he] using h

theorem load_foldl_sameKeys (parse : String → Option JsonDoc)
    (items : List String) (st : St) (h : SameKeys st) :
    SameKeys (items.foldl (load_step parse) st) := by
  induction items generalizing st with
  | nil => simpa using h
  | cons i rest ih =>
    exact ih (load_step parse st i) (load_step_sameKeys parse st i h)

/-! ### Listing-count lemmas (claim C5) -/

theorem keys_agree_setA (n : String) (m : Meta) (l : List (String × Meta))
    (hm : m.name = n) (hag : ∀ kv ∈ l, kv.2.name = kv.1) :
    ∀ kv ∈ setA n m l, kv.2.name = kv.1 := by
  intro kv hkv
  rcases mem_setA kv n m l hkv with h1 | h1
  · rw [h1]
    exact hm
  · exact hag kv h1

theorem listed_count (l : List (String × Meta)) (n : String)
    (hnd : (keysOf l).Nodup) (hag : ∀ kv ∈ l, kv.2.name = kv.1)
    (hm : n ∈ keysOf l) :
    ((l.map Prod.snd).filter fun m => m.name == n).length = 1 := by
  induction l with
  | nil => simp [keysOf] at hm
  | cons kv rest ih =>
    obtain ⟨k₀, m₀⟩ := kv
    simp only [keysOf, List.map_cons, List.nodup_cons] at hnd
    have hname : m₀.name = k₀ := hag (k₀, m₀) (List.mem_cons_self _ _)
    by_cases h0 : n = k₀
    · subst h0
      have hrest : ((rest.map Prod.snd).filter fun m => m.name == n).length = 0 := by
        rw [List.length_eq_zero, List.filter_eq_nil_iff]
        intro m hmem
        simp only [beq_iff_eq]
        rcases List.mem_map.mp hmem with ⟨kv', hkv', hkv2⟩
        intro heq
        apply hnd.1
        have h2 : kv'.1 = n := by
          rw [← hag kv' (List.mem_cons_of_mem _ hkv'), hkv2, heq]
        exact h2 ▸ List.mem_map_of_mem Prod.fst hkv'
      simp [List.filter_cons, hname, hrest]
    · have hm' : n ∈ keysOf rest := by
        rcases (by simpa [keysOf] using hm : n = k₀ ∨ n ∈ rest.map Prod.fst) with h1 | h1
        · exact absurd h1 h0
        · exact h1
      have hk : ¬ (m₀.name == n) = true := by
        simp [hname]
        exact fun hh => h0 hh.symm
      simp only [List.map_cons, List.filter_cons]
      rw [if_neg hk]
      exact ih hnd.2 (fun kv' hkv' => hag kv' (List.mem_cons_of_mem _ hkv')) hm'

/-! ### Claim theorems -/

/-- Claim C1 (evidence for the code bug): the snapshot/restore round trip is
violated by a tree holding one binary file.  Capturing `/bin.dat` = bytes
`[0x00, 0xFF, 0x10]` into snapshot `s1`, deleting the file (an allowed
mutation), and restoring `s1` leaves `/bin.dat` holding the base64 *text*
`"AP8Q"` rather than the original bytes, so the restored content differs
from the original tree's content at that path. -/
theorem c1_snapshot_restore_binary_bug :
    (let st0 := initSt ⟨[("/bin.dat", Node.file (Content.binary [0, 255, 16]))], []⟩
        (fun _ => none)
     let st1 := (create_snapshot st0 "s1" none 0).1
     let st2 : St := { st1 with fs := st1.fs.rm "/bin.dat" }
     fileAt (restore_snapshot st2 "s1").1.fs "/bin.dat" = some (Content.text "AP8Q")) ∧
    fileAt ⟨[("/bin.dat", Node.file (Content.binary [0, 255, 16]))], []⟩ "/bin.dat"
      = some (Content.binary [0, 255, 16]) ∧
    some (Content.text "AP8Q") ≠ some (Content.binary [0, 255, 16]) :=
  ⟨by decide, rfl, by decide⟩

/-- Claim C2 (evidence for the code bug): the capture side encodes the bytes
`[0x00, 0xFF, 0x10]` as the base64 string `"AP8Q"`, but the restore-side
write phase writes that stored string back as text (its `b'...'` sniffing
branch can never match base64 output), so the bytes are not recovered. -/
theorem c2_codec_roundtrip_bug :
    capture_data ⟨[("/bin.dat", Node.file (Content.binary [0, 255, 16]))], []⟩
      = [("/bin.dat", "AP8Q")] ∧
    fileAt (writeFold ⟨[("/bin.dat", Node.file (Content.binary [0, 255, 16]))], []⟩
        [("/bin.dat", "AP8Q")]).1 "/bin.dat" = some (Content.text "AP8Q") ∧
    Content.text "AP8Q" ≠ Content.binary [0, 255, 16] :=
  ⟨by decide, by decide, by decide⟩

/-- Claim C4: `restore_snapshot` on a name absent from the index raises the
not-found `ValueError` before touching anything: the returned state — tree,
index and payload cache — is exactly the input state. -/
theorem c4_restore_unknown_not_found (st : St) (name : String)
    (h : lookupA name st.snapshots = none) :
    restore_snapshot st name = (st, Except.error ()) := by
  simp [restore_snapshot, h]

/-- Witness for C4 at a concrete state and the unknown name `"nope"`. -/
theorem c4_restore_unknown_not_found_witness :
    restore_snapshot ⟨⟨[("/a.txt", Node.file (Content.text "hello"))], []⟩, [], []⟩ "nope"
      = (⟨⟨[("/a.txt", Node.file (Content.text "hello"))], []⟩, [], []⟩, Except.error ()) :=
  c4_restore_unknown_not_found
    ⟨⟨[("/a.txt", Node.file (Content.text "hello"))], []⟩, [], []⟩ "nope" rfl

/-- Claim C7: when persisting `<snapshot_dir>/<name>.json` fails (injected
write failure), `create_snapshot` still returns the snapshot's metadata, the
snapshot stays registered in the in-memory index and payload cache, and the
managed filesystem is untouched (nothing was persisted). -/
theorem c7_create_survives_persist_failure (st : St) (n : String)
    (d : Option String) (t : Nat)
    (hex : st.fs.exists snapshot_dir = true)
    (hfail : memB (snapshot_dir ++ "/" ++ n ++ ".json") st.fs.writeFails = true) :
    (create_snapshot st n d t).2 = ⟨n, descOr d t, some t⟩ ∧
    lookupA n (create_snapshot st n d t).1.snapshots = some ⟨n, descOr d t, some t⟩ ∧
    lookupA n (create_snapshot st n d t).1.snapshot_data = some (capture_data st.fs) ∧
    (create_snapshot st n d t).1.fs = st.fs := by
  obtain ⟨h1, h2, h3⟩ := create_snapshot_state st n d t
  refine ⟨h3, ?_, ?_, ?_⟩
  · rw [h1, lookupA_setA_self]
  · rw [h2, lookupA_setA_self]
  · have hfs : (create_snapshot st n d t).1.fs = (save_snapshot
        { st with
          snapshots := setA n ⟨n, descOr d t, some t⟩ st.snapshots,
          snapshot_data := setA n (capture_data st.fs) st.snapshot_data } n).1.fs := rfl
    rw [hfs]
    simp [save_snapshot, lookupA_setA_self, hex, FS.write_text, hfail]

/-- Witness for C7: a state whose filesystem refuses the persistence write. -/
theorem c7_create_survives_persist_failure_witness :
    (create_snapshot ⟨⟨[("/.snapshots", Node.dir)], ["/.snapshots/s1.json"]⟩, [], []⟩
        "s1" none 5).2 = ⟨"s1", descOr none 5, some 5⟩ ∧
    lookupA "s1" (create_snapshot ⟨⟨[("/.snapshots", Node.dir)], ["/.snapshots/s1.json"]⟩,
        [], []⟩ "s1" none 5).1.snapshots = some ⟨"s1", descOr none 5, some 5⟩ ∧
    lookupA "s1" (create_snapshot ⟨⟨[("/.snapshots", Node.dir)], ["/.snapshots/s1.json"]⟩,
        [], []⟩ "s1" none 5).1.snapshot_data
      = some (capture_data ⟨[("/.snapshots", Node.dir)], ["/.snapshots/s1.json"]⟩) ∧
    (create_snapshot ⟨⟨[("/.snapshots", Node.dir)], ["/.snapshots/s1.json"]⟩, [], []⟩
        "s1" none 5).1.fs = ⟨[("/.snapshots", Node.dir)], ["/.snapshots/s1.json"]⟩ :=
  c7_create_survives_persist_failure
    ⟨⟨[("/.snapshots", Node.dir)], ["/.snapshots/s1.json"]⟩, [], []⟩ "s1" none 5
    (by decide) (by decide)

/-- Counterexample to claim C8 as stated: with `new_name = ""` (a given
name), `import_snapshot` registers and returns the name embedded in the
document (`"orig"`), not `new_name`, because Python's `or` treats the empty
string as absent. -/
theorem c8_empty_new_name_counterexample :
    (import_snapshot ⟨⟨[], []⟩, [], []⟩ (some ⟨some "orig", none, none, []⟩)
        (some "") 7).2 = Except.ok "orig" ∧ ("orig" : String) ≠ "" :=
  ⟨rfl, by decide⟩

/-- Claim C8 as amended: the imported snapshot is registered under
`new_name` when a *non-empty* `new_name` is given; otherwise under the name
embedded in the document; otherwise under `imported_<unix_time>`; the
returned value is exactly the chosen name. -/
theorem c8_import_name_selection (st : St) (d : JsonDoc) (nn : Option String)
    (t : Nat) :
    (∀ s, nn = some s → s ≠ "" →
      (import_snapshot st (some d) nn t).2 = Except.ok s ∧
      (lookupA s (import_snapshot st (some d) nn t).1.snapshots).isSome = true) ∧
    (∀ dn, (nn = none ∨ nn = some "") → d.name = some dn →
      (import_snapshot st (some d) nn t).2 = Except.ok dn ∧
      (lookupA dn (import_snapshot st (some d) nn t).1.snapshots).isSome = true) ∧
    ((nn = none ∨ nn = some "") → d.name = none →
      (import_snapshot st (some d) nn t).2 = Except.ok ("imported_" ++ Nat.repr t) ∧
      (lookupA ("imported_" ++ Nat.repr t)
        (import_snapshot st (some d) nn t).1.snapshots).isSome = true) := by
  obtain ⟨h1, _, h3⟩ := import_snapshot_state st d nn t
  refine ⟨?_, ?_, ?_⟩
  · intro s hs hne
    have hcn : chosen_name nn d.name t = s := by
      simp [chosen_name, hs, hne]
    constructor
    · rw [h3, hcn]
    · rw [h1, hcn, lookupA_setA_self]
      rfl
  · intro dn hnn hdn
    have hcn : chosen_name nn d.name t = dn := by
      rcases hnn with h | h <;> simp [chosen_name, h, hdn]
    constructor
    · rw [h3, hcn]
    · rw [h1, hcn, lookupA_setA_self]
      rfl
  · intro hnn hdn
    have hcn : chosen_name nn d.name t = "imported_" ++ Nat.repr t := by
      rcases hnn with h | h <;> simp [chosen_name, h, hdn]
    constructor
    · rw [h3, hcn]
    · rw [h1, hcn, lookupA_setA_self]
      rfl

/-- Witness for C8 (amended), exercising all three name sources. -/
theorem c8_import_name_selection_witness :
    ((import_snapshot ⟨⟨[], []⟩, [], []⟩ (some ⟨some "orig", none, none, []⟩)
        (some "copy") 3).2 = Except.ok "copy" ∧
      (lookupA "copy" (import_snapshot ⟨⟨[], []⟩, [], []⟩
        (some ⟨some "orig", none, none, []⟩) (some "copy") 3).1.snapshots).isSome = true) ∧
    ((import_snapshot ⟨⟨[], []⟩, [], []⟩ (some ⟨some "orig", none, none, []⟩)
        none 3).2 = Except.ok "orig" ∧
      (lookupA "orig" (import_snapshot ⟨⟨[], []⟩, [], []⟩
        (some ⟨some "orig", none, none, []⟩) none 3).1.snapshots).isSome = true) ∧
    ((import_snapshot ⟨⟨[], []⟩, [], []⟩ (some ⟨none, none, none, []⟩)
        none 3).2 = Except.ok ("imported_" ++ Nat.repr 3) ∧
      (lookupA ("imported_" ++ Nat.repr 3) (import_snapshot ⟨⟨[], []⟩, [], []⟩
        (some ⟨none, none, none, []⟩) none 3).1.snapshots).isSome = true) :=
  ⟨(c8_import_name_selection ⟨⟨[], []⟩, [], []⟩ ⟨some "orig", none, none, []⟩
      (some "copy") 3).1 "copy" rfl (by decide),
   (c8_import_name_selection ⟨⟨[], []⟩, [], []⟩ ⟨some "orig", none, none, []⟩
      none 3).2.1 "orig" (Or.inl rfl) rfl,
   (c8_import_name_selection ⟨⟨[], []⟩, [], []⟩ ⟨none, none, none, []⟩
      none 3).2.2 (Or.inl rfl) rfl⟩

/-- Claim C10: for a registered name, `export_snapshot` returns the state
completely unchanged — index, payload cache and managed filesystem — and its
only write effect is the single external JSON file at `path`. -/
theorem c10_export_frame (st : St) (n p : String) (m : Meta)
    (h : lookupA n st.snapshots = some m) :
    export_snapshot st n p =
      (st, Except.ok ⟨p, serializeSnapshot m ((lookupA n st.snapshot_data).getD [])⟩) := by
  simp [export_snapshot, h]

/-- Witness for C10 at a concrete registered snapshot. -/
theorem c10_export_frame_witness :
    export_snapshot ⟨⟨[], []⟩, [("s", ⟨"s", "d", some 1⟩)], [("s", [("/a.txt", "hello")])]⟩
        "s" "/tmp/out.json"
      = (⟨⟨[], []⟩, [("s", ⟨"s", "d", some 1⟩)], [("s", [("/a.txt", "hello")])]⟩,
         Except.ok ⟨"/tmp/out.json",
           serializeSnapshot ⟨"s", "d", some 1⟩ [("/a.txt", "hello")]⟩) :=
  c10_export_frame ⟨⟨[], []⟩, [("s", ⟨"s", "d", some 1⟩)], [("s", [("/a.txt", "hello")])]⟩
    "s" "/tmp/out.json" ⟨"s", "d", some 1⟩ rfl

theorem memB_false_iff (x : String) (l : List String) :
    memB x l = false ↔ x ∉ l := by
  rw [← memB_iff]
  cases memB x l <;> simp

theorem delFold_rm_sub (fs : FS) (ts : List String) (p : String)
    (h : FSOp.rm p ∈ (delFold fs ts).2) : p ∈ ts := by
  induction ts generalizing fs with
  | nil => simp [delFold] at h
  | cons t ts ih =>
    by_cases hd : fs.is_dir t = true
    · exact List.mem_cons_of_mem _ (ih fs (by simpa [delFold, hd] using h))
    · rcases (by simpa [delFold, hd] using h :
        p = t ∨ FSOp.rm p ∈ (delFold (fs.rm t) ts).2) with h1 | h1
      · simp [h1]
      · exact List.mem_cons_of_mem _ (ih _ h1)

theorem mem_rmTargets (tr : List FSOp) (p : String) :
    p ∈ rmTargets tr ↔ FSOp.rm p ∈ tr := by
  induction tr with
  | nil => simp [rmTargets]
  | cons e rest ih =>
    cases e with
    | rm q =>
      have hstep : rmTargets (FSOp.rm q :: rest) = q :: rmTargets rest := by
        simp [rmTargets, List.filterMap_cons]
      rw [hstep]
      simp only [List.mem_cons, FSOp.rm.injEq]
      rw [ih]
    | mkdirRec q =>
      have hstep : rmTargets (FSOp.mkdirRec q :: rest) = rmTargets rest := by
        simp [rmTargets, List.filterMap_cons]
      rw [hstep, ih]
      simp [List.mem_cons]
    | write q =>
      have hstep : rmTargets (FSOp.write q :: rest) = rmTargets rest := by
        simp [rmTargets, List.filterMap_cons]
      rw [hstep, ih]
      simp [List.mem_cons]

theorem mem_current_paths (fs : FS) (p : String) :
    p ∈ current_paths fs ↔
      p ∈ keysOf fs.entries ∧ startswith p snapshot_dir = false := by
  simp only [current_paths, List.mem_filter, FS.find, Bool.not_eq_true']

theorem mem_del_targets (fs : FS) (sp : List String) (p : String) :
    p ∈ del_targets fs sp ↔
      p ∈ keysOf fs.entries ∧ startswith p snapshot_dir = false ∧ p ∉ sp := by
  simp only [del_targets, List.mem_filter, mem_current_paths, Bool.not_eq_true',
    memB_false_iff, and_assoc]

theorem del_targets_startswith (fs : FS) (sp : List String) :
    ∀ p ∈ del_targets fs sp, startswith p snapshot_dir = false := by
  intro p hp
  exact ((mem_del_targets fs sp p).mp hp).2.1

/-- Claim C3: the reserved namespace `/.snapshots` is excluded on both
sides: no captured payload path lies under it, and the deletion phase of a
restore neither targets nor removes anything under it (the reserved part of
the tree is untouched by that phase). -/
theorem c3_reserved_namespace_excluded (fs : FS) (sp : List String) :
    ((capture_data fs).all fun kv => !(startswith kv.1 snapshot_dir)) = true ∧
    ((rmTargets (delete_phase fs sp).2).all fun p => !(startswith p snapshot_dir)) = true ∧
    (delete_phase fs sp).1.entries.filter (fun kv => startswith kv.1 snapshot_dir)
      = fs.entries.filter fun kv => startswith kv.1 snapshot_dir := by
  refine ⟨?_, ?_, ?_⟩
  · rw [List.all_eq_true]
    intro kv hkv
    have hP := captureFold_keys (fun q => startswith q snapshot_dir = false) fs []
      (current_paths fs) (by simp)
      (fun p hp => ((mem_current_paths fs p).mp hp).2) kv hkv
    simp [hP]
  · rw [List.all_eq_true]
    intro p hp
    have h1 : FSOp.rm p ∈ (delete_phase fs sp).2 := (mem_rmTargets _ p).mp hp
    have h2 : p ∈ del_targets fs sp := delFold_rm_sub fs (del_targets fs sp) p h1
    simp [del_targets_startswith fs sp p h2]
  · exact delFold_filter_startswith fs (del_targets fs sp) (del_targets_startswith fs sp)

/-- Claim C5: capturing a second time under the same name fully replaces the
stored metadata and payload, and the listing afterwards holds exactly one
entry for that name. -/
theorem c5_create_overwrite (st : St) (n : String) (d1 d2 : Option String)
    (t1 t2 : Nat)
    (hnd : (keysOf st.snapshots).Nodup)
    (hag : ∀ kv ∈ st.snapshots, kv.2.name = kv.1) :
    lookupA n (create_snapshot (create_snapshot st n d1 t1).1 n d2 t2).1.snapshots
      = some ⟨n, descOr d2 t2, some t2⟩ ∧
    lookupA n (create_snapshot (create_snapshot st n d1 t1).1 n d2 t2).1.snapshot_data
      = some (capture_data (create_snapshot st n d1 t1).1.fs) ∧
    ((list_snapshots (create_snapshot (create_snapshot st n d1 t1).1 n d2 t2).1).filter
        fun m => m.name == n).length = 1 := by
  obtain ⟨ha1, hb1, _⟩ := create_snapshot_state st n d1 t1
  obtain ⟨ha2, hb2, _⟩ := create_snapshot_state (create_snapshot st n d1 t1).1 n d2 t2
  refine ⟨?_, ?_, ?_⟩
  · rw [ha2, lookupA_setA_self]
  · rw [hb2, lookupA_setA_self]
  · rw [show list_snapshots (create_snapshot (create_snapshot st n d1 t1).1 n d2 t2).1
        = ((create_snapshot (create_snapshot st n d1 t1).1 n d2 t2).1.snapshots).map Prod.snd
        from rfl, ha2]
    apply listed_count
    · rw [ha1]
      exact keys_setA_nodup _ _ _ (keys_setA_nodup _ _ _ hnd)
    · rw [ha1]
      exact keys_agree_setA n _ _ rfl (keys_agree_setA n _ _ rfl hag)
    · exact (mem_keys_setA n n _ _).mpr (Or.inl rfl)

/-- Witness for C5: capture twice under `"s"` starting from an empty manager. -/
theorem c5_create_overwrite_witness :
    lookupA "s" (create_snapshot (create_snapshot ⟨⟨[], []⟩, [], []⟩ "s" none 1).1
        "s" (some "v2") 2).1.snapshots = some ⟨"s", descOr (some "v2") 2, some 2⟩ ∧
    lookupA "s" (create_snapshot (create_snapshot ⟨⟨[], []⟩, [], []⟩ "s" none 1).1
        "s" (some "v2") 2).1.snapshot_data
      = some (capture_data (create_snapshot ⟨⟨[], []⟩, [], []⟩ "s" none 1).1.fs) ∧
    ((list_snapshots (create_snapshot (create_snapshot ⟨⟨[], []⟩, [], []⟩ "s" none 1).1
        "s" (some "v2") 2).1).filter fun m => m.name == "s").length = 1 :=
  c5_create_overwrite ⟨⟨[], []⟩, [], []⟩ "s" none (some "v2") 1 2 (by decide) (by simp)

theorem load_snapshots_sameKeys (parse : String → Option JsonDoc) (st : St)
    (h : SameKeys st) : SameKeys (load_snapshots parse st) := by
  unfold load_snapshots
  split
  · exact load_foldl_sameKeys parse _ _ h
  · exact h

theorem initSt_sameKeys (fs0 : FS) (parse : String → Option JsonDoc) :
    SameKeys (initSt fs0 parse) := by
  unfold initSt
  apply load_snapshots_sameKeys
  intro q
  simp [keysOf]

theorem create_sameKeys (st : St) (n : String) (d : Option String) (t : Nat)
    (h : SameKeys st) : SameKeys (create_snapshot st n d t).1 := by
  obtain ⟨h1, h2, _⟩ := create_snapshot_state st n d t
  intro q
  rw [h1, h2]
  exact sameKeys_setA_pair st n _ _ h q

theorem restore_sameKeys (st : St) (nm : String) (h : SameKeys st) :
    SameKeys (restore_snapshot st nm).1 := by
  intro q
  have hm := restore_snapshot_maps st nm
  rw [hm.1, hm.2]
  exact h q

theorem import_sameKeys (st : St) (doc : Option JsonDoc) (nn : Option String)
    (t : Nat) (h : SameKeys st) : SameKeys (import_snapshot st doc nn t).1 := by
  cases doc with
  | none => simpa [import_snapshot] using h
  | some d =>
    obtain ⟨h1, h2, _⟩ := import_snapshot_state st d nn t
    intro q
    rw [h1, h2]
    exact sameKeys_setA_pair st _ _ _ h q

theorem export_sameKeys (st : St) (n pth : String) (h : SameKeys st) :
    SameKeys (export_snapshot st n pth).1 := by
  rcases he : lookupA n st.snapshots with _ | m <;> simpa [export_snapshot, he] using h

/-- Claim C9: the index and the payload cache always hold the same set of
snapshot names — after construction, and after every public operation when
it already held beforehand (`list_snapshots` reads the state and cannot
break it); hence every listed snapshot has payload data for restore or
export. -/
theorem c9_index_payload_agree (st : St) (fs0 : FS)
    (parse : String → Option JsonDoc) (n nm pth : String) (d : Option String)
    (doc : Option JsonDoc) (nn : Option String) (t : Nat)
    (h : sameKeysB st = true) :
    sameKeysB (initSt fs0 parse) = true ∧
    sameKeysB (create_snapshot st n d t).1 = true ∧
    sameKeysB (restore_snapshot st nm).1 = true ∧
    sameKeysB (import_snapshot st doc nn t).1 = true ∧
    sameKeysB (export_snapshot st n pth).1 = true := by
  have hP := (sameKeysB_iff st).mp h
  exact ⟨(sameKeysB_iff _).mpr (initSt_sameKeys fs0 parse),
    (sameKeysB_iff _).mpr (create_sameKeys st n d t hP),
    (sameKeysB_iff _).mpr (restore_sameKeys st nm hP),
    (sameKeysB_iff _).mpr (import_sameKeys st doc nn t hP),
    (sameKeysB_iff _).mpr (export_sameKeys st n pth hP)⟩

/-- Witness for C9 at a concrete state, name, document and parse function. -/
theorem c9_index_payload_agree_witness :
    sameKeysB (initSt ⟨[("/a.txt", Node.file (Content.text "hi"))], []⟩
      (fun _ => none)) = true ∧
    sameKeysB (create_snapshot ⟨⟨[], []⟩, [("s", ⟨"s", "d", some 1⟩)],
      [("s", [])]⟩ "t" none 2).1 = true ∧
    sameKeysB (restore_snapshot ⟨⟨[], []⟩, [("s", ⟨"s", "d", some 1⟩)],
      [("s", [])]⟩ "s").1 = true ∧
    sameKeysB (import_snapshot ⟨⟨[], []⟩, [("s", ⟨"s", "d", some 1⟩)],
      [("s", [])]⟩ (some ⟨some "x", none, none, []⟩) none 2).1 = true ∧
    sameKeysB (export_snapshot ⟨⟨[], []⟩, [("s", ⟨"s", "d", some 1⟩)],
      [("s", [])]⟩ "t" "/tmp/o.json").1 = true :=
  c9_index_payload_agree ⟨⟨[], []⟩, [("s", ⟨"s", "d", some 1⟩)], [("s", [])]⟩
    ⟨[("/a.txt", Node.file (Content.text "hi"))], []⟩ (fun _ => none)
    "t" "s" "/tmp/o.json" none (some ⟨some "x", none, none, []⟩) none 2
    (by decide)

theorem restore_snapshot_trace (st : St) (name : String) (m : Meta)
    (h : lookupA name st.snapshots = some m) :
    (restore_snapshot st name).2 = Except.ok
      ((delete_phase st.fs (keysOf ((lookupA name st.snapshot_data).getD []))).2 ++
       (mkdirFold (delete_phase st.fs
           (keysOf ((lookupA name st.snapshot_data).getD []))).1
         (keysOf ((lookupA name st.snapshot_data).getD []))).2 ++
       (writeFold (mkdirFold (delete_phase st.fs
             (keysOf ((lookupA name st.snapshot_data).getD []))).1
           (keysOf ((lookupA name st.snapshot_data).getD []))).1
         ((lookupA name st.snapshot_data).getD [])).2) := by
  simp only [restore_snapshot, h]

/-- Claim C6: in `restore_snapshot` on a registered name, the deletion phase
removes exactly the paths of `current_files − snapshot_files` (both already
restricted to the non-reserved namespace) that are classified as files;
directories are never removed in this phase; and in the operation trace all
removals precede every directory creation and file write. -/
theorem c6_restore_deletion_phase (st : St) (name : String) (m : Meta)
    (files : List (String × String))
    (h1 : lookupA name st.snapshots = some m)
    (h2 : (keysOf st.fs.entries).Nodup)
    (h3 : (lookupA name st.snapshot_data).getD [] = files) :
    ∃ tr, (restore_snapshot st name).2 = Except.ok tr ∧
      tr = tr.filter is_rm ++ tr.filter (fun e => !(is_rm e)) ∧
      (∀ p, FSOp.rm p ∈ tr ↔
        (p ∈ keysOf st.fs.entries ∧ startswith p snapshot_dir = false ∧
         p ∉ keysOf files ∧ st.fs.is_dir p = false)) ∧
      (∀ q, lookupA q (delete_phase st.fs (keysOf files)).1.entries =
        if q ∈ keysOf st.fs.entries ∧ startswith q snapshot_dir = false ∧
            q ∉ keysOf files ∧ st.fs.is_dir q = false
        then none else lookupA q st.fs.entries) := by
  have htr := restore_snapshot_trace st name m h1
  rw [h3] at htr
  have hndT : (del_targets st.fs (keysOf files)).Nodup :=
    List.Nodup.filter _ (List.Nodup.filter _ h2)
  have hAo : ∀ e ∈ (delete_phase st.fs (keysOf files)).2, is_rm e = true :=
    delFold_trace_rm st.fs (del_targets st.fs (keysOf files))
  have hBo : ∀ e ∈ (mkdirFold (delete_phase st.fs (keysOf files)).1 (keysOf files)).2,
      is_rm e = false := mkdirFold_trace _ (keysOf files)
  have hCo : ∀ e ∈ (writeFold (mkdirFold (delete_phase st.fs (keysOf files)).1
        (keysOf files)).1 files).2, is_rm e = false := writeFold_trace _ files
  refine ⟨_, htr, ?_, ?_, ?_⟩
  · rw [List.filter_append, List.filter_append, List.filter_append, List.filter_append]
    rw [List.filter_eq_self.mpr hAo]
    rw [List.filter_eq_nil_iff.mpr fun a ha hpa => by rw [hBo a ha] at hpa; cases hpa]
    rw [List.filter_eq_nil_iff.mpr fun a ha hpa => by rw [hCo a ha] at hpa; cases hpa]
    rw [List.filter_eq_nil_iff.mpr fun a ha hpa => by
      rw [show is_rm a = true from hAo a ha] at hpa
      simp at hpa]
    rw [List.filter_eq_self.mpr fun a ha => by rw [hBo a ha]; rfl]
    rw [List.filter_eq_self.mpr fun a ha => by rw [hCo a ha]; rfl]
    simp
  · intro p
    have hmem : FSOp.rm p ∈ (delete_phase st.fs (keysOf files)).2 ++
        (mkdirFold (delete_phase st.fs (keysOf files)).1 (keysOf files)).2 ++
        (writeFold (mkdirFold (delete_phase st.fs (keysOf files)).1
          (keysOf files)).1 files).2 ↔
        FSOp.rm p ∈ (delete_phase st.fs (keysOf files)).2 := by
      constructor
      · intro hp
        rcases List.mem_append.mp hp with hp1 | hp1
        · rcases List.mem_append.mp hp1 with hp2 | hp2
          · exact hp2
          · have := hBo _ hp2
            simp [is_rm] at this
        · have := hCo _ hp1
          simp [is_rm] at this
      · intro hp
        exact List.mem_append.mpr (Or.inl (List.mem_append.mpr (Or.inl hp)))
    rw [hmem]
    rw [show (delete_phase st.fs (keysOf files)).2
        = (delFold st.fs (del_targets st.fs (keysOf files))).2 from rfl]
    rw [delFold_rm_mem st.fs (del_targets st.fs (keysOf files)) hndT p]
    rw [mem_del_targets]
    constructor
    · rintro ⟨⟨a, b, c⟩, dd⟩
      exact ⟨a, b, c, dd⟩
    · rintro ⟨a, b, c, dd⟩
      exact ⟨⟨a, b, c⟩, dd⟩
  · intro q
    rw [show (delete_phase st.fs (keysOf files)).1
        = (delFold st.fs (del_targets st.fs (keysOf files))).1 from rfl]
    rw [delFold_lookup (del_targets st.fs (keysOf files)) st.fs hndT q]
    refine if_congr ?_ rfl rfl
    rw [mem_del_targets]
    constructor
    · rintro ⟨⟨a, b, c⟩, dd⟩
      exact ⟨a, b, c, dd⟩
    · rintro ⟨a, b, c, dd⟩
      exact ⟨⟨a, b, c⟩, dd⟩

/-- Witness for C6: a tree with one stale file, one surviving file, a stale
directory and the reserved namespace, restored from a registered snapshot. -/
theorem c6_restore_deletion_phase_witness :
    ∃ tr, (restore_snapshot ⟨⟨[("/keep.txt", Node.file (Content.text "k")),
        ("/stale.txt", Node.file (Content.text "s")), ("/d", Node.dir),
        ("/.snapshots", Node.dir)], []⟩,
        [("s1", ⟨"s1", "d", some 1⟩)], [("s1", [("/keep.txt", "k")])]⟩ "s1").2
      = Except.ok tr ∧
      tr = tr.filter is_rm ++ tr.filter (fun e => !(is_rm e)) ∧
      (∀ p, FSOp.rm p ∈ tr ↔
        (p ∈ keysOf (⟨[("/keep.txt", Node.file (Content.text "k")),
            ("/stale.txt", Node.file (Content.text "s")), ("/d", Node.dir),
            ("/.snapshots", Node.dir)], []⟩ : FS).entries ∧
         startswith p snapshot_dir = false ∧
         p ∉ keysOf [("/keep.txt", ("k" : String))] ∧
         (⟨[("/keep.txt", Node.file (Content.text "k")),
            ("/stale.txt", Node.file (Content.text "s")), ("/d", Node.dir),
            ("/.snapshots", Node.dir)], []⟩ : FS).is_dir p = false)) ∧
      (∀ q, lookupA q (delete_phase ⟨[("/keep.txt", Node.file (Content.text "k")),
          ("/stale.txt", Node.file (Content.text "s")), ("/d", Node.dir),
          ("/.snapshots", Node.dir)], []⟩
          (keysOf [("/keep.txt", ("k" : String))])).1.entries =
        if q ∈ keysOf (⟨[("/keep.txt", Node.file (Content.text "k")),
            ("/stale.txt", Node.file (Content.text "s")), ("/d", Node.dir),
            ("/.snapshots", Node.dir)], []⟩ : FS).entries ∧
            startswith q snapshot_dir = false ∧
            q ∉ keysOf [("/keep.txt", ("k" : String))] ∧
            (⟨[("/keep.txt", Node.file (Content.text "k")),
               ("/stale.txt", Node.file (Content.text "s")), ("/d", Node.dir),
               ("/.snapshots", Node.dir)], []⟩ : FS).is_dir q = false
        then none
        else lookupA q (⟨[("/keep.txt", Node.file (Content.text "k")),
            ("/stale.txt", Node.file (Content.text "s")), ("/d", Node.dir),
            ("/.snapshots", Node.dir)], []⟩ : FS).entries) :=
  c6_restore_deletion_phase
    ⟨⟨[("/keep.txt", Node.file (Content.text "k")),
       ("/stale.txt", Node.file (Content.text "s")), ("/d", Node.dir),
       ("/.snapshots", Node.dir)], []⟩,
      [("s1", ⟨"s1", "d", some 1⟩)], [("s1", [("/keep.txt", "k")])]⟩
    "s1" ⟨"s1", "d", some 1⟩ [("/keep.txt", "k")] rfl (by decide) rfl

end VfsSnapshot
